import Mathlib

/-!
# Verification of the xfsvol XFS project-quota controller

Shallow embedding of the `xfs` package of the xfsvol repository
(file `xfs/control.go`) together with models of the kernel-facing
quota primitives it calls (which live in a cgo file of the same
package, outside the sources at hand, and are therefore modelled
from the specification).

Go `map[string]uint32` is embedded as an association list with
Go-map assignment semantics (replace if present, append otherwise);
`uint32` arithmetic is embedded as `Nat` arithmetic reduced modulo
`2^32` wherever the Go code can overflow.
-/

set_option autoImplicit false

namespace Xfsvol

/-- Modulus of Go's `uint32` arithmetic. -/
def uint32Mod : Nat := 4294967296

/-- Quota is the pair of hard limits the controller sets for a project:
maximum size in bytes and maximum number of inodes (fields `Size` and
`INode` of the Go `Quota` struct). -/
structure Quota where
  Size : Nat
  INode : Nat
deriving DecidableEq, Repr

/-- A directory entry as returned by `ioutil.ReadDir`: the parts of Go's
`os.FileInfo` that `GeneratePathToProjectIdMap` reads (name and
directory bit). -/
structure FileInfo where
  name : String
  isDir : Bool
deriving DecidableEq, Repr

/-- Modelled from the spec: the kernel-visible filesystem state behind the
quota syscalls of the missing cgo part of the `xfs` package. `attrs` is the
on-disk project id attribute of each directory (0 meaning none, as read by
`GetProjectId` and written by `SetProjectId`); `quotas` is the per-project
quota store written by `SetProjectQuota` and read by `GetProjectQuota`. -/
structure KernelState where
  attrs : String → Nat
  quotas : Nat → Quota

/-- Modelled from the spec: failure injection for the blocking filesystem
and kernel calls the controller issues. Each field tells whether the
corresponding call fails at the given arguments; on success the calls act
deterministically on `KernelState`. -/
structure Env where
  setProjectIdFails : String → Nat → Bool
  setProjectQuotaFails : String → Nat → Quota → Bool
  getProjectQuotaFails : String → Nat → Bool
  getProjectIdFails : String → Bool
  makeBackingFsDevFails : String → String → Bool
  readDirFails : String → Bool

/-- Modelled from the spec: `SetProjectId(path, id)` binds project id `id`
to directory `path` (the privileged attribute-set call of the cgo part of
the package); it either fails leaving the state alone or records the id in
the directory's on-disk attribute. -/
def SetProjectId (env : Env) (k : KernelState) (path : String) (projectId : Nat) :
    Option KernelState :=
  if env.setProjectIdFails path projectId then none
  else some { k with attrs := fun p => if p = path then projectId else k.attrs p }

/-- Modelled from the spec: `GetProjectId(path)` reads the on-disk project
id attribute of `path` (0 when no project is assigned). -/
def GetProjectId (env : Env) (k : KernelState) (path : String) : Option Nat :=
  if env.getProjectIdFails path then none
  else some (k.attrs path)

/-- Modelled from the spec: `SetProjectQuota(dev, id, quota)` issues the
quota-set call against backing device `dev`, installing `quota` as the hard
limits of project `id`. -/
def SetProjectQuota (env : Env) (k : KernelState) (dev : String) (projectId : Nat)
    (quota : Quota) : Option KernelState :=
  if env.setProjectQuotaFails dev projectId quota then none
  else some { k with quotas := fun i => if i = projectId then quota else k.quotas i }

/-- Modelled from the spec: `GetProjectQuota(dev, id)` issues the quota-get
call against backing device `dev` and reports the limits stored for
project `id`. -/
def GetProjectQuota (env : Env) (k : KernelState) (dev : String) (projectId : Nat) :
    Option Quota :=
  if env.getProjectQuotaFails dev projectId then none
  else some (k.quotas projectId)

/-- Modelled from the spec: `MakeBackingFsDev(base, name)` creates the
control block device `base/name`; only its success or failure matters to
the controller. -/
def MakeBackingFsDev (env : Env) (base name : String) : Option Unit :=
  if env.makeBackingFsDevFails base name then none else some ()

/-- `filepath.Join` for the simple two-component joins the package performs. -/
def filepathJoin (a b : String) : String := a ++ "/" ++ b

/-- Name of the control device file (`blockDeviceName` in `control.go`). -/
def blockDeviceName : String := "__control-device"

/-- Lookup in a Go `map[string]uint32` embedded as an association list. -/
def mapLookup (m : List (String × Nat)) (key : String) : Option Nat :=
  match m with
  | [] => none
  | (k, v) :: rest => if k = key then some v else mapLookup rest key

/-- Go map assignment `m[key] = v`: replace the binding if the key is
present, append it otherwise. -/
def mapInsert (m : List (String × Nat)) (key : String) (v : Nat) :
    List (String × Nat) :=
  match m with
  | [] => [(key, v)]
  | (k, w) :: rest =>
    if k = key then (key, v) :: rest else (k, w) :: mapInsert rest key v

/-- Go map deletion `delete(m, key)` (performed by code outside the
controller that drops a cache entry). -/
def mapErase (m : List (String × Nat)) (key : String) : List (String × Nat) :=
  m.filter (fun kv => decide (kv.1 ≠ key))

/-- The `Control` struct of `control.go`: backing device path, path to
project-id cache, and the high-water mark of allocated project ids. -/
structure Control where
  backingFsBlockDev : String
  projectIdCache : List (String × Nat)
  lastProjectId : Nat
deriving DecidableEq, Repr

/-- The `ControlConfig` struct of `control.go`. -/
structure ControlConfig where
  StartingProjectId : Option Nat
  BasePath : String

/-- Error cases of `Control.SetQuota` (the two wrapped error returns in
`control.go`). -/
inductive SetQuotaErr where
  | couldntSetProjectId
  | couldntSetProjectQuota
deriving DecidableEq, Repr

/-- Result of `Control.GetQuota`: either the quota, or one of the two
error returns of `control.go` (no project id associated with the path /
failed to retrieve quota). -/
inductive GetQuotaRes where
  | ok (q : Quota)
  | errNoProjectId
  | errQuotaFailed
deriving DecidableEq, Repr

/-- `Control.SetQuota` of `control.go`: look the path up in the cache; on a
miss allocate `lastProjectId + 1` (uint32 arithmetic), bind it with
`SetProjectId` (returning early on failure, with no state mutated), record
it in the cache and advance `lastProjectId`; in all cases issue
`SetProjectQuota` with the project id and the requested quota. Returns the
updated controller, the updated kernel state, and the error (`none` on
success). -/
def Control.SetQuota (env : Env) (c : Control) (k : KernelState)
    (targetPath : String) (quota : Quota) :
    Control × KernelState × Option SetQuotaErr :=
  match mapLookup c.projectIdCache targetPath with
  | some projectId =>
    match SetProjectQuota env k c.backingFsBlockDev projectId quota with
    | none => (c, k, some .couldntSetProjectQuota)
    | some k2 => (c, k2, none)
  | none =>
    let projectId := (c.lastProjectId + 1) % uint32Mod
    match SetProjectId env k targetPath projectId with
    | none => (c, k, some .couldntSetProjectId)
    | some k1 =>
      let c1 : Control :=
        { c with
          projectIdCache := mapInsert c.projectIdCache targetPath projectId
          lastProjectId := projectId }
      match SetProjectQuota env k1 c1.backingFsBlockDev projectId quota with
      | none => (c1, k1, some .couldntSetProjectQuota)
      | some k2 => (c1, k2, none)

/-- `Control.GetQuota` of `control.go`: look the path up in the cache,
failing when absent, otherwise issue `GetProjectQuota` against the backing
device for the cached project id. The receiver is threaded through
explicitly (the Go method writes no field of it). -/
def Control.GetQuota (env : Env) (c : Control) (k : KernelState)
    (targetPath : String) : Control × GetQuotaRes :=
  match mapLookup c.projectIdCache targetPath with
  | none => (c, .errNoProjectId)
  | some projectId =>
    match GetProjectQuota env k c.backingFsBlockDev projectId with
    | none => (c, .errQuotaFailed)
    | some q => (c, .ok q)

/-- `Control.GetBackingFsBlockDev` of `control.go`, with the receiver
threaded through explicitly (the Go method writes no field of it). -/
def Control.GetBackingFsBlockDev (c : Control) : Control × String :=
  (c, c.backingFsBlockDev)

/-- The loop body of `GeneratePathToProjectIdMap`: walk the directory
entries in order, skip non-directories, abort on a failing `GetProjectId`,
and record `root/name ↦ id` for each non-zero id. -/
def genMapAux (env : Env) (k : KernelState) (root : String)
    (acc : List (String × Nat)) : List FileInfo → Option (List (String × Nat))
  | [] => some acc
  | f :: rest =>
    if f.isDir = false then genMapAux env k root acc rest
    else
      match GetProjectId env k (filepathJoin root f.name) with
      | none => none
      | some projectId =>
        genMapAux env k root
          (if projectId > 0 then mapInsert acc (filepathJoin root f.name) projectId
           else acc) rest

/-- `GeneratePathToProjectIdMap` of `control.go`: list the entries under
`root` (`files` stands for the result of `ioutil.ReadDir(root)`, the
failure of which is injected through `env`), then build the map with
`genMapAux`. -/
def GeneratePathToProjectIdMap (env : Env) (k : KernelState) (root : String)
    (files : List FileInfo) : Option (List (String × Nat)) :=
  if env.readDirFails root then none
  else genMapAux env k root [] files

/-- `NewControl` of `control.go`: reject an empty `BasePath`, seed
`lastProjectId` from the optional `StartingProjectId`, create the backing
device, scan the immediate children (`files` stands for the directory
listing of `BasePath`), and raise `lastProjectId` to every larger project
id found in the scan. -/
def NewControl (env : Env) (k : KernelState) (files : List FileInfo)
    (cfg : ControlConfig) : Option Control :=
  if cfg.BasePath = "" then none
  else
    let last0 := cfg.StartingProjectId.getD 0
    match MakeBackingFsDev env cfg.BasePath blockDeviceName with
    | none => none
    | some _ =>
      match GeneratePathToProjectIdMap env k cfg.BasePath files with
      | none => none
      | some mapping =>
        some
          { backingFsBlockDev := filepathJoin cfg.BasePath blockDeviceName
            projectIdCache := mapping
            lastProjectId :=
              mapping.foldl (fun acc pr => if pr.2 > acc then pr.2 else acc) last0 }

/-- A lifetime step of one controller: either a `SetQuota` call, or the
removal of a cache entry by code outside the controller (the claim's
"previously bound path's cache entry is removed"). -/
inductive Op where
  | setQ (path : String) (quota : Quota)
  | dropEntry (path : String)

/-- State of a run of lifetime steps: the controller, the kernel state,
whether every `SetQuota` call so far succeeded, and the chronological log
of project-id assignments (path, id), one entry per successful
`SetProjectId` bind. -/
structure RunState where
  control : Control
  kernel : KernelState
  allOk : Bool
  allocLog : List (String × Nat)

/-- Execute one lifetime step. For a `SetQuota` call the allocation log
grows by `(path, lastProjectId+1)` exactly when the path misses the cache
and the attribute bind succeeds (the condition under which `control.go`
records a fresh id). -/
def runOp (env : Env) (s : RunState) : Op → RunState
  | .setQ p q =>
    let r := Control.SetQuota env s.control s.kernel p q
    let fresh : List (String × Nat) :=
      match mapLookup s.control.projectIdCache p with
      | some _ => []
      | none =>
        if env.setProjectIdFails p ((s.control.lastProjectId + 1) % uint32Mod) then []
        else [(p, (s.control.lastProjectId + 1) % uint32Mod)]
    { control := r.1
      kernel := r.2.1
      allOk := s.allOk && r.2.2.isNone
      allocLog := s.allocLog ++ fresh }
  | .dropEntry p =>
    { s with
      control :=
        { s.control with projectIdCache := mapErase s.control.projectIdCache p } }

/-- Execute a list of lifetime steps in order. -/
def runOps (env : Env) (s : RunState) : List Op → RunState
  | [] => s
  | op :: rest => runOps env (runOp env s op) rest

/-- Number of `SetQuota` steps in a list of lifetime steps. -/
def countSetQ : List Op → Nat
  | [] => 0
  | .setQ _ _ :: rest => countSetQ rest + 1
  | .dropEntry _ :: rest => countSetQ rest

/-- Largest project id stored in a cache (0 for the empty cache). -/
def maxProjectId (m : List (String × Nat)) : Nat :=
  m.foldr (fun pr acc => Nat.max pr.2 acc) 0

/-- Environment in which every filesystem and kernel call succeeds. -/
def envAllOk : Env :=
  { setProjectIdFails := fun _ _ => false
    setProjectQuotaFails := fun _ _ _ => false
    getProjectQuotaFails := fun _ _ => false
    getProjectIdFails := fun _ => false
    makeBackingFsDevFails := fun _ _ => false
    readDirFails := fun _ => false }

/-- Environment in which the attribute-bind call always fails. -/
def envBindFail : Env :=
  { envAllOk with setProjectIdFails := fun _ _ => true }

/-- Environment in which the quota-set call always fails. -/
def envQuotaSetFail : Env :=
  { envAllOk with setProjectQuotaFails := fun _ _ _ => true }

/-- Kernel state with no project ids bound and all quotas zero. -/
def k0 : KernelState :=
  { attrs := fun _ => 0, quotas := fun _ => ⟨0, 0⟩ }

/-- Kernel state with no project ids bound and quota `(1024·i, i)` stored
for project `i`. -/
def kW : KernelState :=
  { attrs := fun _ => 0, quotas := fun i => ⟨i * 1024, i⟩ }

/-- A freshly initialized controller over `/base` with an empty cache. -/
def c0 : Control :=
  { backingFsBlockDev := "/base/__control-device"
    projectIdCache := []
    lastProjectId := 0 }

/-- A controller whose high-water mark sits at the largest `uint32`. -/
def cMax : Control :=
  { backingFsBlockDev := "/base/__control-device"
    projectIdCache := []
    lastProjectId := 4294967295 }

/-- A controller that already holds one cache entry. -/
def cW : Control :=
  { backingFsBlockDev := "/base/__control-device"
    projectIdCache := [("/base/a", 7)]
    lastProjectId := 7 }

/-- The allocation log the specification predicts for a run of fresh
`SetQuota` calls that all succeed, starting from high-water mark `base`:
the paths in call order, paired with `base+1, base+2, ...`. -/
def expectedLog (base : Nat) : List (String × Quota) → List (String × Nat)
  | [] => []
  | pq :: rest => (pq.1, base + 1) :: expectedLog (base + 1) rest

/-- A concrete lifetime: bind one path, drop its cache entry, bind another. -/
def opsW : List Op :=
  [Op.setQ "/base/a" ⟨100, 1⟩, Op.dropEntry "/base/a", Op.setQ "/base/b" ⟨200, 2⟩]

/-- A concrete directory listing: two directories and one plain file. -/
def filesW : List FileInfo :=
  [⟨"a", true⟩, ⟨"b", false⟩, ⟨"c", true⟩]

/-- Kernel state in which directory `/base/a` carries on-disk project id 7
and every other path carries none. -/
def kFs : KernelState :=
  { attrs := fun p => if p = "/base/a" then 7 else 0, quotas := fun _ => ⟨0, 0⟩ }

section MapLemmas

theorem mapLookup_nil (key : String) : mapLookup [] key = none := rfl

theorem mapLookup_mapInsert_self (m : List (String × Nat)) (key : String) (v : Nat) :
    mapLookup (mapInsert m key v) key = some v := by
  induction m with
  | nil => simp [mapInsert, mapLookup]
  | cons kv rest ih =>
    obtain ⟨k, w⟩ := kv
    by_cases h : k = key
    · simp [mapInsert, mapLookup, h]
    · simp [mapInsert, mapLookup, h, ih]

theorem mapLookup_mapInsert_ne (m : List (String × Nat)) (key key' : String) (v : Nat)
    (h : key ≠ key') : mapLookup (mapInsert m key v) key' = mapLookup m key' := by
  induction m with
  | nil => simp [mapInsert, mapLookup, h]
  | cons kv rest ih =>
    obtain ⟨k, w⟩ := kv
    by_cases hk : k = key
    · subst hk
      simp [mapInsert, mapLookup, h]
    · by_cases hk' : k = key'
      · simp [mapInsert, mapLookup, hk, hk', Ne.symm h]
      · simp [mapInsert, mapLookup, hk, hk', ih]

theorem mapLookup_mapErase (m : List (String × Nat)) (key p : String) :
    mapLookup (mapErase m key) p = if p = key then none else mapLookup m p := by
  induction m with
  | nil => simp [mapErase, mapLookup]
  | cons kv rest ih =>
    obtain ⟨k, w⟩ := kv
    by_cases hk : k = key
    · subst hk
      by_cases hp : p = k
      · simpa [mapErase, mapLookup, hp] using ih
      · have hkp : k ≠ p := fun h => hp h.symm
        simpa [mapErase, mapLookup, hp, hkp] using ih
    · by_cases hkp : k = p
      · have hp : p ≠ key := hkp ▸ hk
        simp [mapErase, mapLookup, hk, hkp, hp]
      · simpa [mapErase, mapLookup, hk, hkp] using ih

end MapLemmas

section SetQuotaLemmas

/-- Characterization of `Control.SetQuota` on a path already in the cache:
the controller is returned unchanged, no attribute is bound, and only the
quota of the cached project id is (on success) rewritten. -/
theorem SetQuota_cached (env : Env) (c : Control) (k : KernelState) (p : String)
    (q : Quota) (pid : Nat) (h : mapLookup c.projectIdCache p = some pid) :
    (Control.SetQuota env c k p q).1 = c ∧
    (∀ path, (Control.SetQuota env c k p q).2.1.attrs path = k.attrs path) ∧
    ((Control.SetQuota env c k p q).2.2 = none ↔
      env.setProjectQuotaFails c.backingFsBlockDev pid q = false) ∧
    ((Control.SetQuota env c k p q).2.2 = none →
      (Control.SetQuota env c k p q).2.1.quotas pid = q ∧
      ∀ i, i ≠ pid → (Control.SetQuota env c k p q).2.1.quotas i = k.quotas i) := by
  by_cases hsf : env.setProjectQuotaFails c.backingFsBlockDev pid q
  · simp [Control.SetQuota, h, SetProjectQuota, hsf]
  · refine ⟨?_, ?_, ?_, ?_⟩
    · simp [Control.SetQuota, h, SetProjectQuota, hsf]
    · simp [Control.SetQuota, h, SetProjectQuota, hsf]
    · simp [Control.SetQuota, h, SetProjectQuota, hsf]
    · intro _
      constructor
      · simp [Control.SetQuota, h, SetProjectQuota, hsf]
      · intro i hne
        simp [Control.SetQuota, h, SetProjectQuota, hsf, hne]

/-- Characterization of `Control.SetQuota` on a cache miss whose
attribute-bind call fails: the error is returned with no state mutated. -/
theorem SetQuota_freshFail (env : Env) (c : Control) (k : KernelState) (p : String)
    (q : Quota) (h : mapLookup c.projectIdCache p = none)
    (hbf : env.setProjectIdFails p ((c.lastProjectId + 1) % uint32Mod) = true) :
    Control.SetQuota env c k p q = (c, k, some SetQuotaErr.couldntSetProjectId) := by
  simp [Control.SetQuota, h, SetProjectId, hbf]

/-- Characterization of `Control.SetQuota` on a cache miss whose
attribute-bind call succeeds: the path is cached at `lastProjectId + 1`
(uint32 arithmetic), the high-water mark advances, the attribute is bound
on disk, and on overall success the quota of the fresh id is stored. -/
theorem SetQuota_freshOk (env : Env) (c : Control) (k : KernelState) (p : String)
    (q : Quota) (h : mapLookup c.projectIdCache p = none)
    (hbf : env.setProjectIdFails p ((c.lastProjectId + 1) % uint32Mod) = false) :
    (Control.SetQuota env c k p q).1 =
      { c with
        projectIdCache := mapInsert c.projectIdCache p ((c.lastProjectId + 1) % uint32Mod)
        lastProjectId := (c.lastProjectId + 1) % uint32Mod } ∧
    ((Control.SetQuota env c k p q).2.2 = none ↔
      env.setProjectQuotaFails c.backingFsBlockDev
        ((c.lastProjectId + 1) % uint32Mod) q = false) ∧
    (Control.SetQuota env c k p q).2.1.attrs p = (c.lastProjectId + 1) % uint32Mod ∧
    ((Control.SetQuota env c k p q).2.2 = none →
      (Control.SetQuota env c k p q).2.1.quotas ((c.lastProjectId + 1) % uint32Mod) = q) := by
  by_cases hsf : env.setProjectQuotaFails c.backingFsBlockDev
      ((c.lastProjectId + 1) % uint32Mod) q
  · simp [Control.SetQuota, h, SetProjectId, hbf, SetProjectQuota, hsf]
  · simp [Control.SetQuota, h, SetProjectId, hbf, SetProjectQuota, hsf]

end SetQuotaLemmas

/-- C9: GetQuota and GetBackingFsBlockDev never modify the controller: for
every controller state and every argument, after either call the
projectIdCache, lastProjectId and backingFsBlockDev fields are unchanged
(the returned receiver state equals the input receiver state), so the
cache and high-water mark are mutated only by the initial scan in
NewControl and by SetQuota. -/
theorem getQuota_getBackingFsBlockDev_readonly (env : Env) (c : Control)
    (k : KernelState) (p : String) :
    (Control.GetQuota env c k p).1 = c ∧ (Control.GetBackingFsBlockDev c).1 = c := by
  refine ⟨?_, rfl⟩
  cases h : mapLookup c.projectIdCache p with
  | none => simp [Control.GetQuota, h]
  | some pid =>
    cases h2 : GetProjectQuota env k c.backingFsBlockDev pid <;>
      simp [Control.GetQuota, h, h2]

/-- C8: if, during SetQuota on a path not yet in the cache, the
attribute-bind call (SetProjectId) fails, SetQuota returns an error and
the controller state (and the kernel state) is unchanged: the cache has no
entry for the path and lastProjectId keeps its prior value, so the
tentatively chosen project id is not consumed. -/
theorem setQuota_bind_failure_state_unchanged (env : Env) (c : Control)
    (k : KernelState) (p : String) (q : Quota)
    (hfresh : mapLookup c.projectIdCache p = none)
    (hfail : env.setProjectIdFails p ((c.lastProjectId + 1) % uint32Mod) = true) :
    Control.SetQuota env c k p q = (c, k, some SetQuotaErr.couldntSetProjectId) := by
  simp [Control.SetQuota, hfresh, SetProjectId, hfail]

/-- Witness for C8 at a concrete input: on an empty cache, with the bind
call failing, the call errors out and returns the controller and kernel
state untouched. -/
theorem setQuota_bind_failure_state_unchanged_witness :
    mapLookup c0.projectIdCache "/base/v" = none ∧
    Control.SetQuota envBindFail c0 k0 "/base/v" ⟨512, 0⟩ =
      (c0, k0, some SetQuotaErr.couldntSetProjectId) :=
  ⟨rfl, setQuota_bind_failure_state_unchanged envBindFail c0 k0 "/base/v" ⟨512, 0⟩
    rfl rfl⟩

/-- C7: if, during SetQuota on a path not yet in the cache, the
attribute-bind call (SetProjectId) succeeds but the subsequent quota-set
call (SetProjectQuota) fails, SetQuota returns an error while the new
cache entry for the path and the advanced lastProjectId are retained: the
project id is consumed and the path remains bound on disk with no limits
applied. -/
theorem setQuota_quotaSet_failure_retains_binding (env : Env) (c : Control)
    (k : KernelState) (p : String) (q : Quota)
    (hfresh : mapLookup c.projectIdCache p = none)
    (hbind : env.setProjectIdFails p ((c.lastProjectId + 1) % uint32Mod) = false)
    (hquota : env.setProjectQuotaFails c.backingFsBlockDev
      ((c.lastProjectId + 1) % uint32Mod) q = true) :
    (Control.SetQuota env c k p q).2.2 = some SetQuotaErr.couldntSetProjectQuota ∧
    mapLookup (Control.SetQuota env c k p q).1.projectIdCache p =
      some ((c.lastProjectId + 1) % uint32Mod) ∧
    (Control.SetQuota env c k p q).1.lastProjectId =
      (c.lastProjectId + 1) % uint32Mod ∧
    (Control.SetQuota env c k p q).2.1.attrs p =
      (c.lastProjectId + 1) % uint32Mod ∧
    (∀ i, (Control.SetQuota env c k p q).2.1.quotas i = k.quotas i) := by
  simp [Control.SetQuota, hfresh, SetProjectId, hbind, SetProjectQuota, hquota,
    mapLookup_mapInsert_self]

/-- Witness for C7 at a concrete input: on an empty cache with a failing
quota-set call, id 1 is consumed, the path stays cached and bound on disk,
and no quota is stored. -/
theorem setQuota_quotaSet_failure_retains_binding_witness :
    mapLookup c0.projectIdCache "/base/v" = none ∧
    (Control.SetQuota envQuotaSetFail c0 k0 "/base/v" ⟨512, 0⟩).2.2 =
      some SetQuotaErr.couldntSetProjectQuota ∧
    mapLookup (Control.SetQuota envQuotaSetFail c0 k0 "/base/v" ⟨512, 0⟩).1.projectIdCache
      "/base/v" = some 1 ∧
    (Control.SetQuota envQuotaSetFail c0 k0 "/base/v" ⟨512, 0⟩).1.lastProjectId = 1 := by
  have h := setQuota_quotaSet_failure_retains_binding envQuotaSetFail c0 k0
    "/base/v" ⟨512, 0⟩ rfl rfl rfl
  exact ⟨rfl, h.1, by simpa using h.2.1, by simpa using h.2.2.1⟩

/-- C2: for every path and every quota q, if SetQuota(path, q) succeeds
then an immediately following GetQuota(path) succeeds and returns a Quota
equal to q, with the kernel quota store modelled as state written by
SetProjectQuota and read by GetProjectQuota for the same project id (the
quota-get call itself succeeding). -/
theorem setQuota_getQuota_roundtrip (env : Env) (c : Control) (k : KernelState)
    (p : String) (q : Quota)
    (hok : (Control.SetQuota env c k p q).2.2 = none)
    (hget : ∀ d i, env.getProjectQuotaFails d i = false) :
    (Control.GetQuota env (Control.SetQuota env c k p q).1
      (Control.SetQuota env c k p q).2.1 p).2 = GetQuotaRes.ok q := by
  cases h : mapLookup c.projectIdCache p with
  | some pid =>
    obtain ⟨h1, -, -, h4⟩ := SetQuota_cached env c k p q pid h
    rw [h1]
    simp [Control.GetQuota, h, GetProjectQuota, hget, (h4 hok).1]
  | none =>
    by_cases hbf : env.setProjectIdFails p ((c.lastProjectId + 1) % uint32Mod)
    · rw [SetQuota_freshFail env c k p q h hbf] at hok
      simp at hok
    · obtain ⟨h1, -, -, h4⟩ := SetQuota_freshOk env c k p q h (by simpa using hbf)
      rw [h1]
      simp [Control.GetQuota, mapLookup_mapInsert_self, GetProjectQuota, hget, h4 hok]

/-- Witness for C2 at a concrete input: setting quota (512, 10) on a fresh
path of an empty controller succeeds, and reading it back returns exactly
(512, 10). -/
theorem setQuota_getQuota_roundtrip_witness :
    (Control.SetQuota envAllOk c0 k0 "/base/v" ⟨512, 10⟩).2.2 = none ∧
    (Control.GetQuota envAllOk (Control.SetQuota envAllOk c0 k0 "/base/v" ⟨512, 10⟩).1
      (Control.SetQuota envAllOk c0 k0 "/base/v" ⟨512, 10⟩).2.1 "/base/v").2 =
      GetQuotaRes.ok ⟨512, 10⟩ :=
  ⟨rfl, setQuota_getQuota_roundtrip envAllOk c0 k0 "/base/v" ⟨512, 10⟩ rfl
    (fun _ _ => rfl)⟩

/-- C3: for a path already present in the cache, SetQuota does not allocate
a new project id, does not change the cache or lastProjectId (the whole
controller value is unchanged) and binds nothing on disk; it only issues
the quota-set call with the existing project id and the new limits.
Consequently two successive SetQuota calls on the same path use the same
project id and the second call's limits are the ones stored. -/
theorem setQuota_existing_path_preserves_projectId (env : Env) (c : Control)
    (k : KernelState) (p : String) (q1 q2 : Quota) :
    (∀ pid, mapLookup c.projectIdCache p = some pid →
      (Control.SetQuota env c k p q1).1 = c ∧
      (∀ path, (Control.SetQuota env c k p q1).2.1.attrs path = k.attrs path) ∧
      ((Control.SetQuota env c k p q1).2.2 = none →
        (Control.SetQuota env c k p q1).2.1.quotas pid = q1 ∧
        ∀ i, i ≠ pid → (Control.SetQuota env c k p q1).2.1.quotas i = k.quotas i)) ∧
    ((Control.SetQuota env c k p q1).2.2 = none →
      (Control.SetQuota env (Control.SetQuota env c k p q1).1
          (Control.SetQuota env c k p q1).2.1 p q2).2.2 = none →
      ∃ pid,
        mapLookup (Control.SetQuota env c k p q1).1.projectIdCache p = some pid ∧
        mapLookup (Control.SetQuota env (Control.SetQuota env c k p q1).1
          (Control.SetQuota env c k p q1).2.1 p q2).1.projectIdCache p = some pid ∧
        (Control.SetQuota env (Control.SetQuota env c k p q1).1
          (Control.SetQuota env c k p q1).2.1 p q2).2.1.quotas pid = q2) := by
  constructor
  · intro pid h
    obtain ⟨h1, h2, -, h4⟩ := SetQuota_cached env c k p q1 pid h
    exact ⟨h1, h2, h4⟩
  · intro h1 h2
    have key : ∀ pid, mapLookup (Control.SetQuota env c k p q1).1.projectIdCache p =
        some pid →
        mapLookup (Control.SetQuota env (Control.SetQuota env c k p q1).1
          (Control.SetQuota env c k p q1).2.1 p q2).1.projectIdCache p = some pid ∧
        ((Control.SetQuota env (Control.SetQuota env c k p q1).1
          (Control.SetQuota env c k p q1).2.1 p q2).2.2 = none →
          (Control.SetQuota env (Control.SetQuota env c k p q1).1
            (Control.SetQuota env c k p q1).2.1 p q2).2.1.quotas pid = q2) := by
      intro pid h
      obtain ⟨g1, -, -, g4⟩ := SetQuota_cached env (Control.SetQuota env c k p q1).1
        (Control.SetQuota env c k p q1).2.1 p q2 pid h
      refine ⟨?_, fun hs => (g4 hs).1⟩
      rw [g1]
      exact h
    cases h : mapLookup c.projectIdCache p with
    | some pid =>
      have hc : mapLookup (Control.SetQuota env c k p q1).1.projectIdCache p =
          some pid := by
        rw [(SetQuota_cached env c k p q1 pid h).1]
        exact h
      exact ⟨pid, hc, (key pid hc).1, (key pid hc).2 h2⟩
    | none =>
      by_cases hbf : env.setProjectIdFails p ((c.lastProjectId + 1) % uint32Mod)
      · rw [SetQuota_freshFail env c k p q1 h hbf] at h1
        simp at h1
      · have hc : mapLookup (Control.SetQuota env c k p q1).1.projectIdCache p =
            some ((c.lastProjectId + 1) % uint32Mod) := by
          rw [(SetQuota_freshOk env c k p q1 h (by simpa using hbf)).1]
          exact mapLookup_mapInsert_self c.projectIdCache p _
        exact ⟨_, hc, (key _ hc).1, (key _ hc).2 h2⟩

/-- Witness for C3 at a concrete input: on a controller whose cache maps a
path to id 7, setting quota (2048, 5) leaves the controller unchanged and
stores the limits for id 7; a second call with (4096, 9) keeps id 7 and
stores the new limits. -/
theorem setQuota_existing_path_preserves_projectId_witness :
    mapLookup cW.projectIdCache "/base/a" = some 7 ∧
    (Control.SetQuota envAllOk cW kW "/base/a" ⟨2048, 5⟩).1 = cW ∧
    (Control.SetQuota envAllOk cW kW "/base/a" ⟨2048, 5⟩).2.1.quotas 7 = ⟨2048, 5⟩ ∧
    (∃ pid,
      mapLookup (Control.SetQuota envAllOk cW kW "/base/a" ⟨2048, 5⟩).1.projectIdCache
        "/base/a" = some pid ∧
      mapLookup (Control.SetQuota envAllOk
        (Control.SetQuota envAllOk cW kW "/base/a" ⟨2048, 5⟩).1
        (Control.SetQuota envAllOk cW kW "/base/a" ⟨2048, 5⟩).2.1
        "/base/a" ⟨4096, 9⟩).1.projectIdCache "/base/a" = some pid ∧
      (Control.SetQuota envAllOk
        (Control.SetQuota envAllOk cW kW "/base/a" ⟨2048, 5⟩).1
        (Control.SetQuota envAllOk cW kW "/base/a" ⟨2048, 5⟩).2.1
        "/base/a" ⟨4096, 9⟩).2.1.quotas pid = ⟨4096, 9⟩) := by
  have h := setQuota_existing_path_preserves_projectId envAllOk cW kW "/base/a"
    ⟨2048, 5⟩ ⟨4096, 9⟩
  have ha := h.1 7 rfl
  exact ⟨rfl, ha.1, (ha.2.2 rfl).1, h.2 rfl rfl⟩

/-- C4: GetQuota fails with the no-project-id error exactly when the path
is absent from the cache; when the path is present, the quota-get call
against the backing device for the cached project id determines the
result: the stored (size, inode) limits on success, the quota-failure
error otherwise. -/
theorem getQuota_error_cases (env : Env) (c : Control) (k : KernelState)
    (p : String) :
    ((Control.GetQuota env c k p).2 = GetQuotaRes.errNoProjectId ↔
      mapLookup c.projectIdCache p = none) ∧
    (∀ pid, mapLookup c.projectIdCache p = some pid →
      (env.getProjectQuotaFails c.backingFsBlockDev pid = false →
        (Control.GetQuota env c k p).2 = GetQuotaRes.ok (k.quotas pid)) ∧
      (env.getProjectQuotaFails c.backingFsBlockDev pid = true →
        (Control.GetQuota env c k p).2 = GetQuotaRes.errQuotaFailed)) := by
  constructor
  · cases h : mapLookup c.projectIdCache p with
    | none => simp [Control.GetQuota, h]
    | some pid =>
      cases h2 : GetProjectQuota env k c.backingFsBlockDev pid <;>
        simp [Control.GetQuota, h, h2]
  · intro pid h
    constructor
    · intro hg
      simp [Control.GetQuota, h, GetProjectQuota, hg]
    · intro hg
      simp [Control.GetQuota, h, GetProjectQuota, hg]

/-- Witness for C4 at concrete inputs: on a controller caching one path at
id 7, reading that path returns the stored limits (7168, 7), and the
absence characterization holds for an uncached path. -/
theorem getQuota_error_cases_witness :
    (Control.GetQuota envAllOk cW kW "/base/a").2 = GetQuotaRes.ok ⟨7168, 7⟩ ∧
    ((Control.GetQuota envAllOk cW kW "/base/b").2 = GetQuotaRes.errNoProjectId ↔
      mapLookup cW.projectIdCache "/base/b" = none) := by
  refine ⟨?_, (getQuota_error_cases envAllOk cW kW "/base/b").1⟩
  have h := ((getQuota_error_cases envAllOk cW kW "/base/a").2 7 rfl).1 rfl
  simpa using h

section ScanLemmas

/-- `genMapAux` adds no entry at a path at which no listed directory with a
non-zero on-disk id sits: the lookup falls through to the accumulator. -/
theorem genMapAux_lookup_preserved (env : Env) (k : KernelState) (root : String)
    (files : List FileInfo) :
    ∀ (acc m : List (String × Nat)) (p : String),
    genMapAux env k root acc files = some m →
    (∀ f ∈ files, filepathJoin root f.name = p → f.isDir = false ∨ k.attrs p = 0) →
    mapLookup m p = mapLookup acc p := by
  induction files with
  | nil =>
    intro acc m p h _
    simp only [genMapAux, Option.some.injEq] at h
    rw [h]
  | cons f rest ih =>
    intro acc m p h hp
    by_cases hd : f.isDir = false
    · simp only [genMapAux, hd, if_pos] at h
      exact ih acc m p h (fun g hg hj => hp g (List.mem_cons_of_mem f hg) hj)
    · have hd' : f.isDir = true := by simpa using hd
      cases hg : GetProjectId env k (filepathJoin root f.name) with
      | none => simp [genMapAux, hd', hg] at h
      | some pid =>
        simp only [genMapAux, hd', Bool.true_eq_false, if_false, hg] at h
        have hrec := ih _ m p h (fun g hg' hj => hp g (List.mem_cons_of_mem f hg') hj)
        by_cases hjp : filepathJoin root f.name = p
        · rcases hp f (List.mem_cons_self f rest) hjp with hdF | hz
          · rw [hd'] at hdF
            exact absurd hdF (by simp)
          · have hattr : k.attrs (filepathJoin root f.name) = pid := by
              by_cases hgf : env.getProjectIdFails (filepathJoin root f.name)
              · simp [GetProjectId, hgf] at hg
              · simpa [GetProjectId, hgf] using hg
            have hpid : pid = 0 := by
              rw [hjp] at hattr
              rw [hattr] at hz
              exact hz.symm ▸ hz
            rw [hpid] at hrec
            simpa using hrec
        · by_cases hpid : pid > 0
          · rw [if_pos hpid] at hrec
            rw [hrec, mapLookup_mapInsert_ne acc (filepathJoin root f.name) p pid hjp]
          · rw [if_neg hpid] at hrec
            exact hrec

/-- `genMapAux` maps every listed directory carrying a non-zero on-disk id
to that id, provided the joined paths of the listing are distinct. -/
theorem genMapAux_lookup_found (env : Env) (k : KernelState) (root : String)
    (files : List FileInfo) :
    ∀ (acc m : List (String × Nat)) (f : FileInfo),
    genMapAux env k root acc files = some m →
    ((files.map fun g => filepathJoin root g.name)).Nodup →
    f ∈ files → f.isDir = true → k.attrs (filepathJoin root f.name) ≠ 0 →
    mapLookup m (filepathJoin root f.name) =
      some (k.attrs (filepathJoin root f.name)) := by
  induction files with
  | nil =>
    intro acc m f _ _ hf
    cases hf
  | cons g rest ih =>
    intro acc m f h hnd hf hdir hz
    have hndt : (rest.map fun g' => filepathJoin root g'.name).Nodup :=
      (List.nodup_cons.mp (by simpa using hnd)).2
    rcases List.mem_cons.mp hf with rfl | hf'
    · have hgp : GetProjectId env k (filepathJoin root f.name) =
          some (k.attrs (filepathJoin root f.name)) := by
        by_cases hgf : env.getProjectIdFails (filepathJoin root f.name)
        · simp [genMapAux, hdir, GetProjectId, hgf] at h
        · simp [GetProjectId, hgf]
      simp only [genMapAux, hdir, Bool.true_eq_false, if_false, hgp] at h
      have hpos : k.attrs (filepathJoin root f.name) > 0 := Nat.pos_of_ne_zero hz
      rw [if_pos hpos] at h
      have hpres := genMapAux_lookup_preserved env k root rest _ m
        (filepathJoin root f.name) h ?_
      · rw [hpres, mapLookup_mapInsert_self]
      · intro g' hg' hj
        exfalso
        have hmem : filepathJoin root f.name ∈
            rest.map fun g'' => filepathJoin root g''.name :=
          List.mem_map.mpr ⟨g', hg', hj⟩
        exact (List.nodup_cons.mp (by simpa using hnd)).1 hmem
    · by_cases hd : g.isDir = false
      · simp only [genMapAux, hd, if_pos] at h
        exact ih acc m f h hndt hf' hdir hz
      · have hd' : g.isDir = true := by simpa using hd
        cases hgg : GetProjectId env k (filepathJoin root g.name) with
        | none => simp [genMapAux, hd', hgg] at h
        | some pid =>
          simp only [genMapAux, hd', Bool.true_eq_false, if_false, hgg] at h
          exact ih _ m f h hndt hf' hdir hz

/-- Successful `NewControl` unpacked: the cache is the scan result, the
high-water mark the raising fold over it, and the backing device sits at
`BasePath/__control-device`. -/
theorem NewControl_success (env : Env) (k : KernelState) (files : List FileInfo)
    (cfg : ControlConfig) (c : Control) (h : NewControl env k files cfg = some c) :
    ∃ m, genMapAux env k cfg.BasePath [] files = some m ∧
      c.projectIdCache = m ∧
      c.lastProjectId =
        m.foldl (fun acc pr => if pr.2 > acc then pr.2 else acc)
          (cfg.StartingProjectId.getD 0) ∧
      c.backingFsBlockDev = filepathJoin cfg.BasePath blockDeviceName := by
  by_cases hb : cfg.BasePath = ""
  · simp [NewControl, hb] at h
  · by_cases hmk : env.makeBackingFsDevFails cfg.BasePath blockDeviceName
    · simp [NewControl, hb, MakeBackingFsDev, hmk] at h
    · by_cases hrd : env.readDirFails cfg.BasePath
      · simp [NewControl, hb, MakeBackingFsDev, hmk, GeneratePathToProjectIdMap,
          hrd] at h
      · cases hg : genMapAux env k cfg.BasePath [] files with
        | none =>
          simp [NewControl, hb, MakeBackingFsDev, hmk, GeneratePathToProjectIdMap,
            hrd, hg] at h
        | some m =>
          simp only [NewControl, hb, MakeBackingFsDev, hmk,
            GeneratePathToProjectIdMap, hrd, hg, if_false, Bool.false_eq_true,
            if_neg, Option.some.injEq] at h
          exact ⟨m, rfl, by rw [← h], by rw [← h], by rw [← h]⟩

/-- `maxProjectId` unfolded one step. -/
theorem maxProjectId_cons (pr : String × Nat) (rest : List (String × Nat)) :
    maxProjectId (pr :: rest) = Nat.max pr.2 (maxProjectId rest) := rfl

/-- The raising fold of `NewControl` computes the maximum of its seed and
the largest project id in the list. -/
theorem foldl_raise_eq_max (l : List (String × Nat)) :
    ∀ i : Nat,
    l.foldl (fun acc pr => if pr.2 > acc then pr.2 else acc) i =
      Nat.max i (maxProjectId l) := by
  induction l with
  | nil => intro i; simp [maxProjectId]
  | cons pr rest ih =>
    intro i
    rw [List.foldl_cons, ih, maxProjectId_cons]
    by_cases hlt : i < pr.2
    · rw [if_pos hlt]
      simp only [Nat.max_def]
      split_ifs <;> omega
    · rw [if_neg hlt]
      simp only [Nat.max_def]
      split_ifs <;> omega

/-- Every id stored in a cache is bounded by `maxProjectId`. -/
theorem mapLookup_le_maxProjectId (m : List (String × Nat)) (p : String) (pid : Nat)
    (h : mapLookup m p = some pid) : pid ≤ maxProjectId m := by
  induction m with
  | nil => simp [mapLookup] at h
  | cons kv rest ih =>
    obtain ⟨kk, v⟩ := kv
    rw [maxProjectId_cons]
    by_cases hk : kk = p
    · simp only [mapLookup, hk, if_pos, Option.some.injEq] at h
      simp only [Nat.max_def]
      split_ifs <;> omega
    · simp only [mapLookup, hk, if_false, if_neg] at h
      have := ih h
      simp only [Nat.max_def]
      split_ifs <;> omega

end ScanLemmas

/-- C5: when NewControl succeeds over a base path whose immediate children
have pairwise distinct joined paths, the resulting cache contains exactly
one entry for each immediate child that is a directory with a non-zero
on-disk project id, mapping the child's absolute path to that id;
non-directories, zero-id directories, and paths belonging to no child have
no entry. -/
theorem newControl_cache_characterization (env : Env) (k : KernelState)
    (files : List FileInfo) (cfg : ControlConfig) (c : Control)
    (hnd : (files.map fun f => filepathJoin cfg.BasePath f.name).Nodup)
    (h : NewControl env k files cfg = some c) :
    (∀ f ∈ files, f.isDir = true →
      k.attrs (filepathJoin cfg.BasePath f.name) ≠ 0 →
      mapLookup c.projectIdCache (filepathJoin cfg.BasePath f.name) =
        some (k.attrs (filepathJoin cfg.BasePath f.name))) ∧
    (∀ f ∈ files,
      (f.isDir = false ∨ k.attrs (filepathJoin cfg.BasePath f.name) = 0) →
      mapLookup c.projectIdCache (filepathJoin cfg.BasePath f.name) = none) ∧
    (∀ p, (∀ f ∈ files, filepathJoin cfg.BasePath f.name ≠ p) →
      mapLookup c.projectIdCache p = none) := by
  obtain ⟨m, hg, hcache, -, -⟩ := NewControl_success env k files cfg c h
  refine ⟨?_, ?_, ?_⟩
  · intro f hf hdir hz
    rw [hcache]
    exact genMapAux_lookup_found env k cfg.BasePath files [] m f hg hnd hf hdir hz
  · intro f hf hcase
    rw [hcache]
    have hpres := genMapAux_lookup_preserved env k cfg.BasePath files [] m
      (filepathJoin cfg.BasePath f.name) hg ?_
    · rw [hpres]
      rfl
    · intro g hgm hj
      have hgf : g = f :=
        List.inj_on_of_nodup_map hnd hgm hf hj
      rw [hgf]
      exact hcase
  · intro p hp
    have hpres := genMapAux_lookup_preserved env k cfg.BasePath files [] m p hg ?_
    · rw [hcache, hpres]
      rfl
    · intro g hgm hj
      exact absurd hj (hp g hgm)

/-- Witness for C5 at a concrete input: scanning a base with directory `a`
(on-disk id 7), plain file `b` and directory `c` (no id) produces exactly
the cache entry for `a`. -/
theorem newControl_cache_characterization_witness :
    NewControl envAllOk kFs filesW ⟨none, "/base"⟩ = some cW ∧
    mapLookup cW.projectIdCache (filepathJoin "/base" "a") =
      some (kFs.attrs (filepathJoin "/base" "a")) ∧
    mapLookup cW.projectIdCache (filepathJoin "/base" "b") = none ∧
    mapLookup cW.projectIdCache (filepathJoin "/base" "c") = none := by
  have h := newControl_cache_characterization envAllOk kFs filesW ⟨none, "/base"⟩ cW
    (by decide) (by decide)
  exact ⟨by decide,
    h.1 ⟨"a", true⟩ (by decide) rfl (by decide),
    h.2.1 ⟨"b", false⟩ (by decide) (Or.inl rfl),
    h.2.1 ⟨"c", true⟩ (by decide) (Or.inr (by decide))⟩

/-- C6 (amended): when NewControl succeeds, lastProjectId equals the
maximum of the configured StartingProjectId (or 0) and the largest project
id observed in the scan; and provided `lastProjectId + 1` does not
overflow uint32, the next fresh allocation uses `lastProjectId + 1`, a
value strictly greater than both the configured floor and every cached
id. -/
theorem newControl_lastProjectId_max (env : Env) (k : KernelState)
    (files : List FileInfo) (cfg : ControlConfig) (c : Control)
    (h : NewControl env k files cfg = some c) :
    c.lastProjectId =
      Nat.max (cfg.StartingProjectId.getD 0) (maxProjectId c.projectIdCache) ∧
    (c.lastProjectId + 1 < uint32Mod →
      ∀ (k' : KernelState) (p : String) (q : Quota),
        mapLookup c.projectIdCache p = none →
        env.setProjectIdFails p (c.lastProjectId + 1) = false →
        mapLookup (Control.SetQuota env c k' p q).1.projectIdCache p =
          some (c.lastProjectId + 1) ∧
        cfg.StartingProjectId.getD 0 < c.lastProjectId + 1 ∧
        ∀ p' pid, mapLookup c.projectIdCache p' = some pid →
          pid < c.lastProjectId + 1) := by
  obtain ⟨m, -, hcache, hlast, -⟩ := NewControl_success env k files cfg c h
  have hmax : c.lastProjectId =
      Nat.max (cfg.StartingProjectId.getD 0) (maxProjectId c.projectIdCache) := by
    rw [hlast, foldl_raise_eq_max, hcache]
  refine ⟨hmax, ?_⟩
  intro hlt k' p q hfresh hbf
  have hmod : (c.lastProjectId + 1) % uint32Mod = c.lastProjectId + 1 :=
    Nat.mod_eq_of_lt hlt
  have hbf' : env.setProjectIdFails p ((c.lastProjectId + 1) % uint32Mod) = false := by
    rw [hmod]
    exact hbf
  obtain ⟨h1, -, -, -⟩ := SetQuota_freshOk env c k' p q hfresh hbf'
  refine ⟨?_, ?_, ?_⟩
  · rw [h1]
    show mapLookup (mapInsert c.projectIdCache p ((c.lastProjectId + 1) % uint32Mod))
      p = some (c.lastProjectId + 1)
    rw [hmod]
    exact mapLookup_mapInsert_self c.projectIdCache p (c.lastProjectId + 1)
  · have : cfg.StartingProjectId.getD 0 ≤ c.lastProjectId := by
      rw [hmax]
      simp only [Nat.max_def]
      split_ifs <;> omega
    omega
  · intro p' pid hp'
    have hle := mapLookup_le_maxProjectId c.projectIdCache p' pid hp'
    have : maxProjectId c.projectIdCache ≤ c.lastProjectId := by
      rw [hmax]
      simp only [Nat.max_def]
      split_ifs <;> omega
    omega

/-- Counterexample to C6 as stated: initializing with StartingProjectId
4294967295 (the largest uint32) succeeds with lastProjectId 4294967295,
but the next fresh allocation wraps around to project id 0, which is not
strictly greater than the configured floor or the high-water mark. -/
theorem newControl_lastProjectId_wraparound_cex :
    NewControl envAllOk k0 [] ⟨some 4294967295, "/base"⟩ = some cMax ∧
    mapLookup (Control.SetQuota envAllOk cMax k0 "/base/v" ⟨512, 0⟩).1.projectIdCache
      "/base/v" = some 0 ∧
    ¬ cMax.lastProjectId < 0 := by
  exact ⟨by decide, by decide, by decide⟩

/-- Witness for C6 at a concrete input: after scanning a base holding
directory `a` with id 7 and no configured floor, lastProjectId is
`max 0 7`, and a fresh path is allocated id 8. -/
theorem newControl_lastProjectId_max_witness :
    NewControl envAllOk kFs filesW ⟨none, "/base"⟩ = some cW ∧
    cW.lastProjectId =
      Nat.max ((none : Option Nat).getD 0) (maxProjectId cW.projectIdCache) ∧
    mapLookup (Control.SetQuota envAllOk cW k0 "/base/z" ⟨1, 1⟩).1.projectIdCache
      "/base/z" = some (cW.lastProjectId + 1) := by
  have h := newControl_lastProjectId_max envAllOk kFs filesW ⟨none, "/base"⟩ cW
    (by decide)
  have h2 := h.2 (by decide) k0 "/base/z" ⟨1, 1⟩ (by decide) rfl
  exact ⟨by decide, h.1, h2.1⟩

section RunLemmas

/-- A `SetQuota` step on a cached path leaves controller and log alone. -/
theorem runOp_setQ_cached (env : Env) (s : RunState) (p : String) (q : Quota)
    (pid : Nat) (h : mapLookup s.control.projectIdCache p = some pid) :
    runOp env s (.setQ p q) =
      { control := s.control
        kernel := (Control.SetQuota env s.control s.kernel p q).2.1
        allOk := s.allOk && ((Control.SetQuota env s.control s.kernel p q).2.2).isNone
        allocLog := s.allocLog } := by
  have h1 := (SetQuota_cached env s.control s.kernel p q pid h).1
  simp [runOp, h, h1]

/-- A `SetQuota` step on a fresh path whose bind call fails changes only
the success flag. -/
theorem runOp_setQ_freshFail (env : Env) (s : RunState) (p : String) (q : Quota)
    (h : mapLookup s.control.projectIdCache p = none)
    (hbf : env.setProjectIdFails p
      ((s.control.lastProjectId + 1) % uint32Mod) = true) :
    runOp env s (.setQ p q) =
      { control := s.control
        kernel := s.kernel
        allOk := false
        allocLog := s.allocLog } := by
  have h1 := SetQuota_freshFail env s.control s.kernel p q h hbf
  simp [runOp, h, hbf, h1]

/-- A `SetQuota` step on a fresh path whose bind call succeeds: the cache
gains the path at the next id, the high-water mark advances, and the
allocation is logged. -/
theorem runOp_setQ_freshOk (env : Env) (s : RunState) (p : String) (q : Quota)
    (h : mapLookup s.control.projectIdCache p = none)
    (hbf : env.setProjectIdFails p
      ((s.control.lastProjectId + 1) % uint32Mod) = false) :
    runOp env s (.setQ p q) =
      { control :=
          { s.control with
            projectIdCache := mapInsert s.control.projectIdCache p
              ((s.control.lastProjectId + 1) % uint32Mod)
            lastProjectId := (s.control.lastProjectId + 1) % uint32Mod }
        kernel := (Control.SetQuota env s.control s.kernel p q).2.1
        allOk := s.allOk && ((Control.SetQuota env s.control s.kernel p q).2.2).isNone
        allocLog := s.allocLog ++
          [(p, (s.control.lastProjectId + 1) % uint32Mod)] } := by
  have h1 := (SetQuota_freshOk env s.control s.kernel p q h hbf).1
  simp [runOp, h, hbf, h1]

/-- A drop step only erases the cache entry. -/
theorem runOp_dropEntry (env : Env) (s : RunState) (p : String) :
    runOp env s (.dropEntry p) =
      { s with control :=
          { s.control with projectIdCache := mapErase s.control.projectIdCache p } } :=
  rfl

/-- A failed run can never become successful again. -/
theorem runOps_allOk_false (env : Env) (ops : List Op) :
    ∀ s : RunState, s.allOk = false → (runOps env s ops).allOk = false := by
  induction ops with
  | nil => intro s h; exact h
  | cons op rest ih =>
    intro s h
    show (runOps env (runOp env s op) rest).allOk = false
    apply ih
    cases op with
    | setQ p q =>
      show (s.allOk && _) = false
      rw [h]
      rfl
    | dropEntry p => exact h

/-- One step only appends to the allocation log; the rest of the state is
independent of the log carried in. -/
theorem runOp_log (env : Env) (s : RunState) (op : Op) :
    runOp env s op =
      { runOp env { s with allocLog := [] } op with
        allocLog := s.allocLog ++ (runOp env { s with allocLog := [] } op).allocLog } := by
  cases op with
  | setQ p q => simp [runOp]
  | dropEntry p => simp [runOp]

/-- A run only appends to the allocation log; controller, kernel and flag
are independent of the log carried in. -/
theorem runOps_log (env : Env) (ops : List Op) :
    ∀ s : RunState,
    runOps env s ops =
      { runOps env { s with allocLog := [] } ops with
        allocLog := s.allocLog ++
          (runOps env { s with allocLog := [] } ops).allocLog } := by
  induction ops with
  | nil => intro s; simp [runOps]
  | cons op rest ih =>
    intro s
    show runOps env (runOp env s op) rest = _
    rw [runOp_log env s op, ih]
    conv_rhs => rw [show runOps env { s with allocLog := [] } (op :: rest) =
      runOps env (runOp env { s with allocLog := [] } op) rest from rfl]
    conv_rhs => rw [ih (runOp env { s with allocLog := [] } op)]
    simp

end RunLemmas

section RunInvariant

/-- Lifetime invariant of a controller: every cached id and every logged
allocation stays below the high-water mark, logged allocations are
strictly increasing in order, the high-water mark never decreases, and
every allocation performed during the run is strictly above the initial
high-water mark — all provided the run performs few enough `SetQuota`
steps for `lastProjectId` not to overflow uint32. -/
theorem runOps_invariant (env : Env) (ops : List Op) :
    ∀ s : RunState,
    (∀ p pid, mapLookup s.control.projectIdCache p = some pid →
      pid ≤ s.control.lastProjectId) →
    (∀ e ∈ s.allocLog, e.2 ≤ s.control.lastProjectId) →
    List.Pairwise (fun a b : String × Nat => a.2 < b.2) s.allocLog →
    s.control.lastProjectId + countSetQ ops < uint32Mod →
    (∀ p pid, mapLookup (runOps env s ops).control.projectIdCache p = some pid →
      pid ≤ (runOps env s ops).control.lastProjectId) ∧
    (∀ e ∈ (runOps env s ops).allocLog,
      e.2 ≤ (runOps env s ops).control.lastProjectId) ∧
    List.Pairwise (fun a b : String × Nat => a.2 < b.2) (runOps env s ops).allocLog ∧
    s.control.lastProjectId ≤ (runOps env s ops).control.lastProjectId ∧
    (∀ e ∈ (runOps env s ops).allocLog,
      e ∈ s.allocLog ∨ s.control.lastProjectId < e.2) := by
  induction ops with
  | nil =>
    intro s h1 h2 h3 _
    exact ⟨h1, h2, h3, Nat.le_refl _, fun e he => Or.inl he⟩
  | cons op rest ih =>
    intro s h1 h2 h3 hcap
    simp only [runOps]
    cases op with
    | dropEntry p =>
      rw [runOp_dropEntry env s p]
      refine ih { s with control :=
        { s.control with projectIdCache := mapErase s.control.projectIdCache p } }
        ?_ h2 h3 hcap
      intro p' pid hp'
      rw [mapLookup_mapErase] at hp'
      by_cases hpk : p' = p
      · rw [if_pos hpk] at hp'
        cases hp'
      · rw [if_neg hpk] at hp'
        exact h1 p' pid hp'
    | setQ p q =>
      have hcap1 : s.control.lastProjectId + countSetQ rest < uint32Mod := by
        have : countSetQ (Op.setQ p q :: rest) = countSetQ rest + 1 := rfl
        omega
      cases hl : mapLookup s.control.projectIdCache p with
      | some pid =>
        rw [runOp_setQ_cached env s p q pid hl]
        exact ih
          { control := s.control
            kernel := (Control.SetQuota env s.control s.kernel p q).2.1
            allOk := s.allOk && ((Control.SetQuota env s.control s.kernel p q).2.2).isNone
            allocLog := s.allocLog } h1 h2 h3 hcap1
      | none =>
        by_cases hbf : env.setProjectIdFails p
            ((s.control.lastProjectId + 1) % uint32Mod) = true
        · rw [runOp_setQ_freshFail env s p q hl hbf]
          exact ih
            { control := s.control
              kernel := s.kernel
              allOk := false
              allocLog := s.allocLog } h1 h2 h3 hcap1
        · have hbf' : env.setProjectIdFails p
              ((s.control.lastProjectId + 1) % uint32Mod) = false := by
            simpa using hbf
          have hlt : s.control.lastProjectId + 1 < uint32Mod := by
            have : countSetQ (Op.setQ p q :: rest) = countSetQ rest + 1 := rfl
            omega
          have hmod : (s.control.lastProjectId + 1) % uint32Mod =
              s.control.lastProjectId + 1 := Nat.mod_eq_of_lt hlt
          have hstep := runOp_setQ_freshOk env s p q hl hbf'
          rw [hmod] at hstep
          rw [hstep]
          have hh1 : ∀ p' pid,
              mapLookup (mapInsert s.control.projectIdCache p
                (s.control.lastProjectId + 1)) p' = some pid →
              pid ≤ s.control.lastProjectId + 1 := by
            intro p' pid hp'
            by_cases hpk : p' = p
            · rw [hpk, mapLookup_mapInsert_self] at hp'
              injection hp' with hp''
              omega
            · rw [mapLookup_mapInsert_ne _ p p' _ (fun hh => hpk hh.symm)] at hp'
              exact Nat.le_trans (h1 p' pid hp') (Nat.le_succ _)
          have hh2 : ∀ e ∈ s.allocLog ++ [(p, s.control.lastProjectId + 1)],
              e.2 ≤ s.control.lastProjectId + 1 := by
            intro e he
            rcases List.mem_append.mp he with hold | hnew
            · exact Nat.le_trans (h2 e hold) (Nat.le_succ _)
            · rw [List.mem_singleton.mp hnew]
          have hh3 : List.Pairwise (fun a b : String × Nat => a.2 < b.2)
              (s.allocLog ++ [(p, s.control.lastProjectId + 1)]) := by
            refine List.pairwise_append.mpr ⟨h3, List.pairwise_singleton _ _, ?_⟩
            intro a ha b hb
            rw [List.mem_singleton.mp hb]
            exact Nat.lt_succ_of_le (h2 a ha)
          have hh4 : s.control.lastProjectId + 1 + countSetQ rest < uint32Mod := by
            have : countSetQ (Op.setQ p q :: rest) = countSetQ rest + 1 := rfl
            omega
          obtain ⟨g1, g2, g3, g4, g5⟩ := ih
            { control :=
                { s.control with
                  projectIdCache := mapInsert s.control.projectIdCache p
                    (s.control.lastProjectId + 1)
                  lastProjectId := s.control.lastProjectId + 1 }
              kernel := (Control.SetQuota env s.control s.kernel p q).2.1
              allOk := s.allOk &&
                ((Control.SetQuota env s.control s.kernel p q).2.2).isNone
              allocLog := s.allocLog ++ [(p, s.control.lastProjectId + 1)] }
            hh1 hh2 hh3 hh4
          refine ⟨g1, g2, g3, Nat.le_trans (Nat.le_succ _) g4, ?_⟩
          intro e he
          rcases g5 e he with hin | hgt
          · rcases List.mem_append.mp hin with hold | hnew
            · exact Or.inl hold
            · have heq : e = (p, s.control.lastProjectId + 1) :=
                List.mem_singleton.mp hnew
              exact Or.inr (by rw [heq]; exact Nat.lt_succ_self _)
          · exact Or.inr (Nat.lt_of_succ_lt hgt)

end RunInvariant

section RunConsecutive

/-- A run of `SetQuota` calls on pairwise distinct fresh paths that all
succeed logs exactly the allocations `lastProjectId+1, lastProjectId+2,
...` in call order and advances the high-water mark by the number of
calls, provided the ids do not overflow uint32. -/
theorem runOps_consecutive (env : Env) (calls : List (String × Quota)) :
    ∀ (c : Control) (k : KernelState),
    (calls.map Prod.fst).Nodup →
    (∀ pq ∈ calls, mapLookup c.projectIdCache pq.1 = none) →
    c.lastProjectId + calls.length < uint32Mod →
    (runOps env ⟨c, k, true, []⟩ (calls.map fun pq => Op.setQ pq.1 pq.2)).allOk =
      true →
    (runOps env ⟨c, k, true, []⟩ (calls.map fun pq => Op.setQ pq.1 pq.2)).allocLog =
      expectedLog c.lastProjectId calls ∧
    (runOps env ⟨c, k, true, []⟩
        (calls.map fun pq => Op.setQ pq.1 pq.2)).control.lastProjectId =
      c.lastProjectId + calls.length := by
  induction calls with
  | nil =>
    intro c k _ _ _ _
    exact ⟨rfl, rfl⟩
  | cons pq rest ih =>
    intro c k hnd hfresh hcap hok
    have hfresh0 : mapLookup c.projectIdCache pq.1 = none :=
      hfresh pq (List.mem_cons_self pq rest)
    have hlen : (pq :: rest).length = rest.length + 1 := rfl
    rw [hlen] at hcap
    have hlt : c.lastProjectId + 1 < uint32Mod := by omega
    have hmod : (c.lastProjectId + 1) % uint32Mod = c.lastProjectId + 1 :=
      Nat.mod_eq_of_lt hlt
    simp only [List.map_cons, runOps] at hok ⊢
    by_cases hbf : env.setProjectIdFails pq.1
        ((c.lastProjectId + 1) % uint32Mod) = true
    · exfalso
      have hfalse : (runOps env (runOp env ⟨c, k, true, []⟩ (Op.setQ pq.1 pq.2))
          (rest.map fun pq => Op.setQ pq.1 pq.2)).allOk = false := by
        apply runOps_allOk_false
        rw [runOp_setQ_freshFail env ⟨c, k, true, []⟩ pq.1 pq.2 hfresh0 hbf]
      rw [hfalse] at hok
      cases hok
    · have hbf' : env.setProjectIdFails pq.1
          ((c.lastProjectId + 1) % uint32Mod) = false := by
        simpa using hbf
      have hstep := runOp_setQ_freshOk env ⟨c, k, true, []⟩ pq.1 pq.2 hfresh0 hbf'
      dsimp only at hstep
      rw [hmod] at hstep
      cases hr : (Control.SetQuota env c k pq.1 pq.2).2.2 with
      | some e =>
        exfalso
        have hfalse : (runOps env (runOp env ⟨c, k, true, []⟩ (Op.setQ pq.1 pq.2))
            (rest.map fun pq => Op.setQ pq.1 pq.2)).allOk = false := by
          apply runOps_allOk_false
          rw [hstep]
          show (true && (Control.SetQuota env c k pq.1 pq.2).2.2.isNone) = false
          rw [hr]
          rfl
        rw [hfalse] at hok
        cases hok
      | none =>
        have hstep' : runOp env ⟨c, k, true, []⟩ (Op.setQ pq.1 pq.2) =
            { control :=
                { c with
                  projectIdCache := mapInsert c.projectIdCache pq.1
                    (c.lastProjectId + 1)
                  lastProjectId := c.lastProjectId + 1 }
              kernel := (Control.SetQuota env c k pq.1 pq.2).2.1
              allOk := true
              allocLog := [(pq.1, c.lastProjectId + 1)] } := by
          rw [hstep]
          simp only [hr, Option.isNone_none, Bool.and_true, Bool.true_and,
            List.nil_append]
        rw [hstep'] at hok ⊢
        have hsplit := runOps_log env (rest.map fun pq => Op.setQ pq.1 pq.2)
          ⟨{ c with
              projectIdCache := mapInsert c.projectIdCache pq.1
                (c.lastProjectId + 1)
              lastProjectId := c.lastProjectId + 1 },
            (Control.SetQuota env c k pq.1 pq.2).2.1, true,
            [(pq.1, c.lastProjectId + 1)]⟩
        rw [hsplit] at hok ⊢
        dsimp only at hok ⊢
        simp only [List.map_cons] at hnd
        have hne := (List.nodup_cons.mp hnd).1
        have hndt := (List.nodup_cons.mp hnd).2
        have hfresh' : ∀ pq' ∈ rest,
            mapLookup (mapInsert c.projectIdCache pq.1 (c.lastProjectId + 1))
              pq'.1 = none := by
          intro pq' hpq'
          have hne' : pq.1 ≠ pq'.1 := by
            intro hh
            exact hne (hh ▸ List.mem_map_of_mem Prod.fst hpq')
          rw [mapLookup_mapInsert_ne _ _ _ _ hne']
          exact hfresh pq' (List.mem_cons_of_mem pq hpq')
        have hcap' : c.lastProjectId + 1 + rest.length < uint32Mod := by omega
        obtain ⟨ih1, ih2⟩ := ih
          { c with
            projectIdCache := mapInsert c.projectIdCache pq.1 (c.lastProjectId + 1)
            lastProjectId := c.lastProjectId + 1 }
          (Control.SetQuota env c k pq.1 pq.2).2.1 hndt hfresh' hcap' hok
        constructor
        · rw [ih1]
          rfl
        · rw [ih2]
          dsimp only
          rw [hlen]
          omega

end RunConsecutive

/-- A run of `SetQuota` steps contains exactly one step per call. -/
theorem countSetQ_map (calls : List (String × Quota)) :
    countSetQ (calls.map fun pq => Op.setQ pq.1 pq.2) = calls.length := by
  induction calls with
  | nil => rfl
  | cons pq rest ih => simp only [List.map_cons, countSetQ, ih, List.length_cons]

/-- The ids of the predicted allocation log are `base+1, ..., base+N`. -/
theorem expectedLog_map_snd (l : List (String × Quota)) :
    ∀ base : Nat,
    (expectedLog base l).map Prod.snd =
      (List.range l.length).map (fun i => base + 1 + i) := by
  induction l with
  | nil => intro base; rfl
  | cons pq rest ih =>
    intro base
    simp only [expectedLog, List.map_cons, List.length_cons]
    rw [List.range_succ_eq_map]
    simp only [List.map_cons, List.map_map]
    rw [ih (base + 1)]
    refine List.cons_eq_cons.mpr ⟨by omega, ?_⟩
    apply List.map_congr_left
    intro i _
    simp only [Function.comp_apply]
    omega

/-- C1 (amended): provided lastProjectId plus the number of SetQuota steps
stays below 2^32 (no uint32 wraparound of the id counter), the project ids
allocated over the lifetime of one controller are pairwise distinct and
strictly above the initial high-water mark and every initially cached id —
even across steps that remove a previously bound path's cache entry — and
a run of N successful SetQuota calls on distinct paths absent from the
cache allocates exactly lastProjectId+1, ..., lastProjectId+N in call
order. -/
theorem projectId_allocation_strictly_increasing (env : Env) (c : Control)
    (k : KernelState) (ops : List Op)
    (hinv : ∀ p pid, mapLookup c.projectIdCache p = some pid →
      pid ≤ c.lastProjectId)
    (hcap : c.lastProjectId + countSetQ ops < uint32Mod) :
    List.Pairwise (fun a b : String × Nat => a.2 ≠ b.2)
      (runOps env ⟨c, k, true, []⟩ ops).allocLog ∧
    (∀ e ∈ (runOps env ⟨c, k, true, []⟩ ops).allocLog, c.lastProjectId < e.2) ∧
    (∀ e ∈ (runOps env ⟨c, k, true, []⟩ ops).allocLog,
      ∀ p pid, mapLookup c.projectIdCache p = some pid → pid ≠ e.2) ∧
    (∀ calls, ops = calls.map (fun pq => Op.setQ pq.1 pq.2) →
      (calls.map Prod.fst).Nodup →
      (∀ pq ∈ calls, mapLookup c.projectIdCache pq.1 = none) →
      (runOps env ⟨c, k, true, []⟩ ops).allOk = true →
      (runOps env ⟨c, k, true, []⟩ ops).allocLog =
        expectedLog c.lastProjectId calls ∧
      ((runOps env ⟨c, k, true, []⟩ ops).allocLog.map Prod.snd =
        (List.range calls.length).map (fun i => c.lastProjectId + 1 + i))) := by
  obtain ⟨-, -, g3, -, g5⟩ := runOps_invariant env ops ⟨c, k, true, []⟩ hinv
    (by intro e he; cases he) List.Pairwise.nil hcap
  have hlow : ∀ e ∈ (runOps env ⟨c, k, true, []⟩ ops).allocLog,
      c.lastProjectId < e.2 := by
    intro e he
    rcases g5 e he with hx | hgt
    · cases hx
    · exact hgt
  refine ⟨g3.imp (fun h => Nat.ne_of_lt h), hlow, ?_, ?_⟩
  · intro e he p pid hp
    exact Nat.ne_of_lt (Nat.lt_of_le_of_lt (hinv p pid hp) (hlow e he))
  · intro calls hops hnd hfr hok
    subst hops
    rw [countSetQ_map] at hcap
    obtain ⟨hlog, hlast⟩ := runOps_consecutive env calls c k hnd hfr hcap hok
    refine ⟨hlog, ?_⟩
    rw [hlog]
    exact expectedLog_map_snd calls c.lastProjectId

/-- Witness for C1 at a concrete input: on an empty controller, the run
bind `/base/a`, drop its cache entry, bind `/base/b` allocates the
distinct ids 1 and 2, both above the initial high-water mark 0. -/
theorem projectId_allocation_strictly_increasing_witness :
    c0.lastProjectId + countSetQ opsW < uint32Mod ∧
    List.Pairwise (fun a b : String × Nat => a.2 ≠ b.2)
      (runOps envAllOk ⟨c0, k0, true, []⟩ opsW).allocLog ∧
    (∀ e ∈ (runOps envAllOk ⟨c0, k0, true, []⟩ opsW).allocLog,
      c0.lastProjectId < e.2) ∧
    (runOps envAllOk ⟨c0, k0, true, []⟩ opsW).allocLog =
      [("/base/a", 1), ("/base/b", 2)] := by
  have h := projectId_allocation_strictly_increasing envAllOk c0 k0 opsW
    (by intro p pid hp; simp [c0, mapLookup] at hp) (by decide)
  exact ⟨by decide, h.1, h.2.1, by decide⟩

/-- Counterexample to C1 as stated: a controller whose high-water mark is
the largest uint32 is reachable through NewControl, and its next
successful fresh SetQuota call allocates project id 0, not
lastProjectId+1. -/
theorem projectId_allocation_wraparound_cex :
    NewControl envAllOk k0 [] ⟨some 4294967295, "/base"⟩ = some cMax ∧
    (runOps envAllOk ⟨cMax, k0, true, []⟩ [Op.setQ "/base/v" ⟨512, 0⟩]).allOk =
      true ∧
    (runOps envAllOk ⟨cMax, k0, true, []⟩ [Op.setQ "/base/v" ⟨512, 0⟩]).allocLog =
      [("/base/v", 0)] ∧
    (0 : Nat) ≠ cMax.lastProjectId + 1 := by
  exact ⟨by decide, by decide, by decide, by decide⟩

end Xfsvol
